import Mathlib

/-!
# Verification of the Xvisor host IRQ-domain manager and SBI constants

Shallow embedding of `core/vmm_host_irqdomain.c` (the host IRQ domain
manager) and of the guest-visible SBI capability constants from
`arch/riscv/cpu/generic/include/cpu_vcpu_sbi.h`.

Modelling conventions:
* `unsigned int` quantities (`hirq`, `hwirq`, `base`, `count`, `end`) are
  `Nat`; values that may be negative error codes (`int` returns, the
  signed `base` argument of `add`) are `Int`.  No arithmetic in the
  verified paths approaches the 32-bit wrap-around.
* The external collaborators (the extended-IRQ allocator
  `vmm_host_irqext_*`, the generic interrupt registry `vmm_host_irq_get`,
  the heap) are not in the sources; they are modelled from the spec as
  oracles plus an explicit liveness state (see the `Modelled from the
  spec:` doc comments).  The heap allocator is modelled as always
  succeeding.
* The global intrusive domain list guarded by the rw-lock is modelled as
  an explicit `List HostIrqdomain` threaded through the operations
  (insertion order = list order); locking is invisible to the sequential
  functional model.
-/

namespace Irqdomain

/-- `VMM_OK` from `vmm_error.h` (external header): success code `0`. -/
def VMM_OK : Int := 0

/-- Modelled from the spec: `VMM_ENOTAVAIL` from `vmm_error.h` (external
header, not in the sources).  The spec only requires it to be a failure
code distinct from every valid (non-negative) host IRQ number; we fix a
negative value. -/
def VMM_ENOTAVAIL : Int := -3

/-- `struct vmm_host_irqdomain` (fields used by the verified operations).
The remaining fields (`head` list node, `host_data`, `of_node`, `ops`)
are opaque pointers never inspected by this layer and are omitted.
The C field `end` is a Lean keyword, hence `end_`. -/
structure HostIrqdomain where
  base : Nat
  count : Nat
  end_ : Nat
  deriving Repr, DecidableEq

/-- State of the external generic interrupt registry: the set of host IRQ
numbers that currently have a live `struct vmm_host_irq` record
(`vmm_host_irq_get` returns non-NULL exactly on these). -/
structure ExtState where
  live : List Nat
  deriving Repr, DecidableEq

/-- Modelled from the spec: `vmm_host_irq_get(hirq)` of the external
generic interrupt registry — "get(irq_number) -> irq_record | absent,
used to test whether a hirq already has a live mapping".  We only model
presence/absence. -/
def vmm_host_irq_get (st : ExtState) (n : Nat) : Bool :=
  decide (n ∈ st.live)

/-- Modelled from the spec: `vmm_host_irqext_create_mapping(global_irq)`
of the external extended-IRQ allocator — "create_mapping(global_irq) ->
hirq | failure".  The oracle `alloc` gives the allocator's `int` result
for each global IRQ number (negative = failure); on success the mapping
at that number becomes live in the generic registry, on failure the
state is unchanged. -/
def vmm_host_irqext_create_mapping (alloc : Nat → Int) (st : ExtState) (n : Nat) :
    Int × ExtState :=
  if alloc n < 0 then (alloc n, st) else (alloc n, ⟨n :: st.live⟩)

/-- Modelled from the spec: `vmm_host_irqext_dispose_mapping(hirq)` of
the external extended-IRQ allocator — "dispose_mapping(hirq) -> Ok |
failure".  The oracle `disp` gives the result (negative = failure); on
success the liveness at `hirq` is cleared, on failure the state is
unchanged. -/
def vmm_host_irqext_dispose_mapping (disp : Nat → Int) (st : ExtState) (n : Nat) :
    Int × ExtState :=
  if disp n < 0 then (disp n, st) else (disp n, ⟨st.live.filter (fun m => m != n)⟩)

/-- `vmm_host_irqdomain_to_hwirq`:
`if (hirq < domain->base || hirq > domain->end) return VMM_ENOTAVAIL;
 return hirq - domain->base;` -/
def vmm_host_irqdomain_to_hwirq (domain : HostIrqdomain) (hirq : Nat) : Int :=
  if hirq < domain.base ∨ hirq > domain.end_ then VMM_ENOTAVAIL
  else (hirq : Int) - (domain.base : Int)

/-- `vmm_host_irqdomain_find_mapping`:
`if (hwirq > domain->count) return -1;
 if (vmm_host_irq_get(domain->base + hwirq)) return domain->base + hwirq;
 return -1;` -/
def vmm_host_irqdomain_find_mapping (st : ExtState) (domain : HostIrqdomain)
    (hwirq : Nat) : Int :=
  if hwirq > domain.count then -1
  else if vmm_host_irq_get st (domain.base + hwirq) then
    ((domain.base + hwirq : Nat) : Int)
  else -1

/-- The lookup predicate of `vmm_host_irqdomain_get`:
`(hirq > domain->base) && (hirq < domain->end)` — strict on both ends. -/
def strictlyContains (d : HostIrqdomain) (hirq : Nat) : Prop :=
  d.base < hirq ∧ hirq < d.end_

instance (d : HostIrqdomain) (hirq : Nat) : Decidable (strictlyContains d hirq) :=
  inferInstanceAs (Decidable (d.base < hirq ∧ hirq < d.end_))

/-- `vmm_host_irqdomain_get(hirq)`: linear scan (under the read lock) of
the registry list, returning the first domain with
`hirq > base && hirq < end`, NULL (here `none`) when no domain matches
(the diagnostic printf on the failure path is a side effect we drop). -/
def vmm_host_irqdomain_get (reg : List HostIrqdomain) (hirq : Nat) :
    Option HostIrqdomain :=
  reg.find? (fun d => decide (strictlyContains d hirq))

/-- Result of `vmm_host_irqdomain_create_mapping`: the returned `int`,
the external state after the call, and how many times the external
allocator `vmm_host_irqext_create_mapping` was invoked (instrumentation
for the idempotence claim; the C code has no such counter). -/
structure CreateResult where
  ret : Int
  st : ExtState
  allocCalls : Nat
  deriving Repr, DecidableEq

/-- `vmm_host_irqdomain_create_mapping`:
`if (!domain) return VMM_ENOTAVAIL;
 if (hwirq > domain->count) return VMM_ENOTAVAIL;
 hirq = vmm_host_irqdomain_find_mapping(domain, hwirq);
 if (hirq >= 0) return hirq;
 hirq = vmm_host_irqext_create_mapping(domain->base + hwirq);
 return (hirq < 0) ? hirq : domain->base + hwirq;` -/
def vmm_host_irqdomain_create_mapping (alloc : Nat → Int) (st : ExtState)
    (domain : Option HostIrqdomain) (hwirq : Nat) : CreateResult :=
  match domain with
  | none => ⟨VMM_ENOTAVAIL, st, 0⟩
  | some d =>
    if hwirq > d.count then ⟨VMM_ENOTAVAIL, st, 0⟩
    else if 0 ≤ vmm_host_irqdomain_find_mapping st d hwirq then
      ⟨vmm_host_irqdomain_find_mapping st d hwirq, st, 0⟩
    else if (vmm_host_irqext_create_mapping alloc st (d.base + hwirq)).1 < 0 then
      ⟨(vmm_host_irqext_create_mapping alloc st (d.base + hwirq)).1,
       (vmm_host_irqext_create_mapping alloc st (d.base + hwirq)).2, 1⟩
    else
      ⟨((d.base + hwirq : Nat) : Int),
       (vmm_host_irqext_create_mapping alloc st (d.base + hwirq)).2, 1⟩

/-- `vmm_host_irqdomain_dispose_mapping`:
`domain = vmm_host_irqdomain_get(hirq);
 if (!domain) return VMM_ENOTAVAIL;
 return vmm_host_irqext_dispose_mapping(hirq);` -/
def vmm_host_irqdomain_dispose_mapping (disp : Nat → Int) (st : ExtState)
    (reg : List HostIrqdomain) (hirq : Nat) : Int × ExtState :=
  match vmm_host_irqdomain_get reg hirq with
  | none => (VMM_ENOTAVAIL, st)
  | some _ => vmm_host_irqext_dispose_mapping disp st hirq

/-- `vmm_host_irqdomain_add(of_node, base, size, ops, host_data)`.
`cap` stands for the config constant `CONFIG_HOST_IRQ_COUNT` (a
compile-time parameter, not in the sources); `allocRegion` is the
external `vmm_host_irqext_alloc_region` oracle (Modelled from the spec:
"alloc_region(size) -> base | failure", negative = failure).  The heap
(`vmm_zalloc`/`vmm_free`) is modelled as always succeeding; freeing the
record on the allocator-failure path has no observable trace here.
Returns the created domain (NULL = `none`) together with the registry
after the call (tail insertion under the write lock). -/
def vmm_host_irqdomain_add (cap : Nat) (allocRegion : Nat → Int)
    (reg : List HostIrqdomain) (base : Int) (size : Nat) :
    Option HostIrqdomain × List HostIrqdomain :=
  if 0 ≤ base ∧ ((cap : Int) ≤ base ∨ (cap : Int) ≤ base + (size : Int)) then
    (none, reg)
  else if base < 0 ∧ allocRegion size < 0 then
    (none, reg)
  else if base < 0 then
    (some ⟨(allocRegion size).toNat, size, (allocRegion size).toNat + size⟩,
     reg ++ [⟨(allocRegion size).toNat, size, (allocRegion size).toNat + size⟩])
  else
    (some ⟨base.toNat, size, base.toNat + size⟩,
     reg ++ [⟨base.toNat, size, base.toNat + size⟩])

/-- The disposal loop of `vmm_host_irqdomain_remove`:
`for (pos = domain->base; pos < domain->end; ++pos)
     vmm_host_irqext_dispose_mapping(pos);`
(`len` iterations starting at `base`).  Returns the final external state
and, as instrumentation, the list of positions the disposal was invoked
on (the C loop ignores every return value). -/
def disposeRange (disp : Nat → Int) (st : ExtState) (base len : Nat) :
    ExtState × List Nat :=
  (List.range len).foldl
    (fun p i =>
      ((vmm_host_irqext_dispose_mapping disp p.1 (base + i)).2, p.2 ++ [base + i]))
    (st, [])

/-- `vmm_host_irqdomain_remove(domain)`: no-op on NULL; otherwise
`list_del` the domain under the write lock, dispose every slot in
`[base, end)`, `vmm_free` the record (freeing has no observable trace in
the value model; `list_del` of the node is `List.erase` of the record).
Returns the external state, the registry after the call, and the list of
disposed positions. -/
def vmm_host_irqdomain_remove (disp : Nat → Int) (st : ExtState)
    (reg : List HostIrqdomain) (domain : Option HostIrqdomain) :
    ExtState × List HostIrqdomain × List Nat :=
  match domain with
  | none => (st, reg, [])
  | some d =>
    ((disposeRange disp st d.base (d.end_ - d.base)).1, reg.erase d,
     (disposeRange disp st d.base (d.end_ - d.base)).2)

/-- `CPU_VCPU_SBI_VERSION_MAJOR` from `cpu_vcpu_sbi.h`. -/
def CPU_VCPU_SBI_VERSION_MAJOR : Nat := 0

/-- `CPU_VCPU_SBI_VERSION_MINOR` from `cpu_vcpu_sbi.h`. -/
def CPU_VCPU_SBI_VERSION_MINOR : Nat := 3

/-- `CPU_VCPU_SBI_IMPID` from `cpu_vcpu_sbi.h`. -/
def CPU_VCPU_SBI_IMPID : Nat := 2

/-- Disjointness of the half-open ranges `[base, end)` of two domains —
the registry invariant the spec states for live domains. -/
def rangesDisjoint (A B : HostIrqdomain) : Prop :=
  A.end_ ≤ B.base ∨ B.end_ ≤ A.base

instance (A B : HostIrqdomain) : Decidable (rangesDisjoint A B) :=
  inferInstanceAs (Decidable (A.end_ ≤ B.base ∨ B.end_ ≤ A.base))

instance : DecidableRel rangesDisjoint :=
  fun A B => inferInstanceAs (Decidable (rangesDisjoint A B))

/-- Registries reachable from the initial empty registry
(`vmm_host_irqdomain_init` leaves the list empty) by any sequence of
`vmm_host_irqdomain_add` / `vmm_host_irqdomain_remove` calls, with
arbitrary allocator and disposal oracles at each step. -/
inductive Reach (cap : Nat) : List HostIrqdomain → Prop
  | init : Reach cap []
  | step_add (reg : List HostIrqdomain) (oracle : Nat → Int) (base : Int) (size : Nat) :
      Reach cap reg →
      Reach cap (vmm_host_irqdomain_add cap oracle reg base size).2
  | step_remove (reg : List HostIrqdomain) (disp : Nat → Int) (st : ExtState)
      (domain : Option HostIrqdomain) :
      Reach cap reg →
      Reach cap (vmm_host_irqdomain_remove disp st reg domain).2.1

/-- Reachability restricted to well-behaved creations: every successful
`add` step creates a domain whose range is disjoint from the ranges of
all domains live at that moment (the discipline the auto-allocation
policy is intended to provide; the code itself never checks it). -/
inductive ReachDisj (cap : Nat) : List HostIrqdomain → Prop
  | init : ReachDisj cap []
  | step_add (reg : List HostIrqdomain) (oracle : Nat → Int) (base : Int) (size : Nat) :
      ReachDisj cap reg →
      (∀ d, (vmm_host_irqdomain_add cap oracle reg base size).1 = some d →
        ∀ x ∈ reg, rangesDisjoint x d) →
      ReachDisj cap (vmm_host_irqdomain_add cap oracle reg base size).2
  | step_remove (reg : List HostIrqdomain) (disp : Nat → Int) (st : ExtState)
      (domain : Option HostIrqdomain) :
      ReachDisj cap reg →
      ReachDisj cap (vmm_host_irqdomain_remove disp st reg domain).2.1

/-- C1: `vmm_host_irqdomain_to_hwirq` returns `hirq - base` whenever
`base ≤ hirq ≤ end` (upper bound inclusive) and `VMM_ENOTAVAIL` whenever
`hirq < base` or `hirq > end`. -/
theorem to_hwirq_in_range_iff (d : HostIrqdomain) (hirq : Nat) :
    (d.base ≤ hirq ∧ hirq ≤ d.end_ →
      vmm_host_irqdomain_to_hwirq d hirq = (hirq : Int) - (d.base : Int)) ∧
    (hirq < d.base ∨ d.end_ < hirq →
      vmm_host_irqdomain_to_hwirq d hirq = VMM_ENOTAVAIL) := by
  constructor
  · rintro ⟨h1, h2⟩
    unfold vmm_host_irqdomain_to_hwirq
    rw [if_neg]
    push_neg
    exact ⟨h1, h2⟩
  · intro h
    unfold vmm_host_irqdomain_to_hwirq
    rw [if_pos]
    rcases h with h | h
    · exact Or.inl h
    · exact Or.inr h

/-- C1 witness: for the domain `base = 100, count = 8, end = 108`,
translation succeeds on `100 + k` for `k = 0` and `k = 8` (inclusive
upper boundary) and fails for `k = 9` and for `hirq = 99 < base`. -/
theorem to_hwirq_concrete_witness :
    ((100 : Nat) ≤ 100 ∧ (100 : Nat) ≤ 108) ∧
    vmm_host_irqdomain_to_hwirq ⟨100, 8, 108⟩ 100 = 0 ∧
    vmm_host_irqdomain_to_hwirq ⟨100, 8, 108⟩ 108 = 8 ∧
    vmm_host_irqdomain_to_hwirq ⟨100, 8, 108⟩ 109 = VMM_ENOTAVAIL ∧
    vmm_host_irqdomain_to_hwirq ⟨100, 8, 108⟩ 99 = VMM_ENOTAVAIL := by
  refine ⟨by decide, ?_, ?_, ?_, ?_⟩
  · exact (to_hwirq_in_range_iff ⟨100, 8, 108⟩ 100).1 (by decide)
  · exact (to_hwirq_in_range_iff ⟨100, 8, 108⟩ 108).1 (by decide)
  · exact (to_hwirq_in_range_iff ⟨100, 8, 108⟩ 109).2 (by decide)
  · exact (to_hwirq_in_range_iff ⟨100, 8, 108⟩ 99).2 (by decide)

/-- C3 counterexample: the "no mapping" outcome is NOT reported with a
sentinel distinct from the out-of-bounds failure — both paths of
`vmm_host_irqdomain_find_mapping` return the same value `-1`.  For the
domain `base = 0, count = 4, end = 4` with an empty registry, `hwirq = 5`
is out of bounds and `hwirq = 2` is in bounds with no live mapping, yet
both calls return `-1`. -/
theorem find_mapping_same_sentinel_cex :
    (5 : Nat) > 4 ∧ (2 : Nat) ≤ 4 ∧
    vmm_host_irq_get ⟨[]⟩ 2 = false ∧
    vmm_host_irqdomain_find_mapping ⟨[]⟩ ⟨0, 4, 4⟩ 5 = -1 ∧
    vmm_host_irqdomain_find_mapping ⟨[]⟩ ⟨0, 4, 4⟩ 2 = -1 ∧
    vmm_host_irqdomain_find_mapping ⟨[]⟩ ⟨0, 4, 4⟩ 5 =
      vmm_host_irqdomain_find_mapping ⟨[]⟩ ⟨0, 4, 4⟩ 2 := by
  decide

/-- C3 (amended): `vmm_host_irqdomain_find_mapping` returns `-1` for every
`hwirq > count`; otherwise it returns `base + hwirq` when the generic
interrupt registry has a live entry at that number, and `-1` (the same
sentinel as the out-of-bounds failure) when it does not. -/
theorem find_mapping_spec (st : ExtState) (d : HostIrqdomain) (hwirq : Nat) :
    (d.count < hwirq → vmm_host_irqdomain_find_mapping st d hwirq = -1) ∧
    (hwirq ≤ d.count → vmm_host_irq_get st (d.base + hwirq) = true →
      vmm_host_irqdomain_find_mapping st d hwirq = ((d.base + hwirq : Nat) : Int)) ∧
    (hwirq ≤ d.count → vmm_host_irq_get st (d.base + hwirq) = false →
      vmm_host_irqdomain_find_mapping st d hwirq = -1) := by
  refine ⟨fun h => ?_, fun h hl => ?_, fun h hl => ?_⟩
  · unfold vmm_host_irqdomain_find_mapping
    rw [if_pos h]
  · unfold vmm_host_irqdomain_find_mapping
    rw [if_neg (by omega), if_pos hl]
  · unfold vmm_host_irqdomain_find_mapping
    rw [if_neg (by omega), if_neg (by simp [hl])]

/-- C3 witness: instances of the three clauses of `find_mapping_spec` on
the domain `base = 10, count = 4, end = 14` with host IRQ 12 live. -/
theorem find_mapping_spec_witness :
    vmm_host_irqdomain_find_mapping ⟨[12]⟩ ⟨10, 4, 14⟩ 5 = -1 ∧
    vmm_host_irqdomain_find_mapping ⟨[12]⟩ ⟨10, 4, 14⟩ 2 = 12 ∧
    vmm_host_irqdomain_find_mapping ⟨[12]⟩ ⟨10, 4, 14⟩ 3 = -1 := by
  refine ⟨?_, ?_, ?_⟩
  · exact (find_mapping_spec ⟨[12]⟩ ⟨10, 4, 14⟩ 5).1 (by decide)
  · exact (find_mapping_spec ⟨[12]⟩ ⟨10, 4, 14⟩ 2).2.1 (by decide) (by decide)
  · exact (find_mapping_spec ⟨[12]⟩ ⟨10, 4, 14⟩ 3).2.2 (by decide) (by decide)

/-- C4: `vmm_host_irqdomain_get` returns the first domain in registry
order whose open interval `(base, end)` strictly contains `hirq`
(exclusive on both ends), and returns no domain exactly when no live
domain satisfies this. -/
theorem irqdomain_get_first_strict (reg : List HostIrqdomain) (hirq : Nat) :
    (∀ d, vmm_host_irqdomain_get reg hirq = some d →
      strictlyContains d hirq ∧
      ∃ l1 l2, reg = l1 ++ d :: l2 ∧ ∀ x ∈ l1, ¬ strictlyContains x hirq) ∧
    (vmm_host_irqdomain_get reg hirq = none →
      ∀ d ∈ reg, ¬ strictlyContains d hirq) := by
  induction reg with
  | nil =>
    refine ⟨fun d h => by simp [vmm_host_irqdomain_get] at h, fun _ d hd => ?_⟩
    simp at hd
  | cons a l ih =>
    by_cases ha : strictlyContains a hirq
    · refine ⟨fun d h => ?_, fun h => ?_⟩
      · have : vmm_host_irqdomain_get (a :: l) hirq = some a := by
          unfold vmm_host_irqdomain_get
          rw [List.find?_cons_of_pos _ (by simpa using ha)]
        rw [this] at h
        cases h
        exact ⟨ha, [], l, rfl, by simp⟩
      · have : vmm_host_irqdomain_get (a :: l) hirq = some a := by
          unfold vmm_host_irqdomain_get
          rw [List.find?_cons_of_pos _ (by simpa using ha)]
        rw [this] at h
        cases h
    · have hstep : vmm_host_irqdomain_get (a :: l) hirq =
          vmm_host_irqdomain_get l hirq := by
        unfold vmm_host_irqdomain_get
        rw [List.find?_cons_of_neg _ (by simpa using ha)]
      refine ⟨fun d h => ?_, fun h => ?_⟩
      · rw [hstep] at h
        obtain ⟨hd, l1, l2, hsplit, hfirst⟩ := ih.1 d h
        refine ⟨hd, a :: l1, l2, by rw [hsplit]; rfl, ?_⟩
        intro x hx
        rcases List.mem_cons.1 hx with hx | hx
        · rwa [hx]
        · exact hfirst x hx
      · rw [hstep] at h
        intro d hd
        rcases List.mem_cons.1 hd with hd | hd
        · rwa [hd]
        · exact ih.2 h d hd

/-- C4 witness: in the registry `[⟨0,4,4⟩, ⟨10,4,14⟩, ⟨9,8,17⟩]`, host
IRQ 12 is strictly inside both of the last two domains and
`vmm_host_irqdomain_get` returns the first of them in registry order;
host IRQ 4 (the boundary `end` of the first domain and below every other
base+1) matches no domain. -/
theorem irqdomain_get_first_witness :
    strictlyContains ⟨10, 4, 14⟩ 12 ∧
    (∃ l1 l2, ([⟨0, 4, 4⟩, ⟨10, 4, 14⟩, ⟨9, 8, 17⟩] : List HostIrqdomain) =
        l1 ++ (⟨10, 4, 14⟩ : HostIrqdomain) :: l2 ∧
        ∀ x ∈ l1, ¬ strictlyContains x 12) ∧
    (∀ d ∈ ([⟨0, 4, 4⟩, ⟨10, 4, 14⟩, ⟨9, 8, 17⟩] : List HostIrqdomain),
        ¬ strictlyContains d 4) := by
  refine ⟨?_, ?_, ?_⟩
  · exact ((irqdomain_get_first_strict [⟨0, 4, 4⟩, ⟨10, 4, 14⟩, ⟨9, 8, 17⟩] 12).1
      ⟨10, 4, 14⟩ (by decide)).1
  · exact ((irqdomain_get_first_strict [⟨0, 4, 4⟩, ⟨10, 4, 14⟩, ⟨9, 8, 17⟩] 12).1
      ⟨10, 4, 14⟩ (by decide)).2
  · exact (irqdomain_get_first_strict [⟨0, 4, 4⟩, ⟨10, 4, 14⟩, ⟨9, 8, 17⟩] 4).2
      (by decide)

/-- C8: the guest-visible SBI capability constants are bit-exact:
major version 0, minor version 3, implementation ID 2. -/
theorem sbi_constants_exact :
    CPU_VCPU_SBI_VERSION_MAJOR = 0 ∧
    CPU_VCPU_SBI_VERSION_MINOR = 3 ∧
    CPU_VCPU_SBI_IMPID = 2 := by
  decide

/-- Helper: `find_mapping` on an out-of-bounds `hwirq`. -/
theorem find_mapping_oob (st : ExtState) (d : HostIrqdomain) (hwirq : Nat)
    (h : d.count < hwirq) : vmm_host_irqdomain_find_mapping st d hwirq = -1 := by
  unfold vmm_host_irqdomain_find_mapping
  rw [if_pos h]

/-- Helper: `find_mapping` when the generic registry has a live entry. -/
theorem find_mapping_hit (st : ExtState) (d : HostIrqdomain) (hwirq : Nat)
    (h : hwirq ≤ d.count) (hl : vmm_host_irq_get st (d.base + hwirq) = true) :
    vmm_host_irqdomain_find_mapping st d hwirq = ((d.base + hwirq : Nat) : Int) := by
  unfold vmm_host_irqdomain_find_mapping
  rw [if_neg (by omega), if_pos hl]

/-- Helper: `find_mapping` when the generic registry has no live entry. -/
theorem find_mapping_miss (st : ExtState) (d : HostIrqdomain) (hwirq : Nat)
    (h : hwirq ≤ d.count) (hl : vmm_host_irq_get st (d.base + hwirq) = false) :
    vmm_host_irqdomain_find_mapping st d hwirq = -1 := by
  unfold vmm_host_irqdomain_find_mapping
  rw [if_neg (by omega), if_neg (by simp [hl])]

/-- Helper: `create_mapping` on a non-NULL domain, with the `match`
reduced (definitional unfolding). -/
theorem create_mapping_some (alloc : Nat → Int) (st : ExtState) (d : HostIrqdomain)
    (hwirq : Nat) :
    vmm_host_irqdomain_create_mapping alloc st (some d) hwirq =
      (if hwirq > d.count then ⟨VMM_ENOTAVAIL, st, 0⟩
       else if 0 ≤ vmm_host_irqdomain_find_mapping st d hwirq then
         ⟨vmm_host_irqdomain_find_mapping st d hwirq, st, 0⟩
       else if (vmm_host_irqext_create_mapping alloc st (d.base + hwirq)).1 < 0 then
         ⟨(vmm_host_irqext_create_mapping alloc st (d.base + hwirq)).1,
          (vmm_host_irqext_create_mapping alloc st (d.base + hwirq)).2, 1⟩
       else
         ⟨((d.base + hwirq : Nat) : Int),
          (vmm_host_irqext_create_mapping alloc st (d.base + hwirq)).2, 1⟩) := rfl

/-- Helper: `create_mapping` when a mapping already exists returns it
without touching the external state or the allocator. -/
theorem create_mapping_exists (alloc : Nat → Int) (st : ExtState) (d : HostIrqdomain)
    (hwirq : Nat) (hin : hwirq ≤ d.count)
    (hf : 0 ≤ vmm_host_irqdomain_find_mapping st d hwirq) :
    vmm_host_irqdomain_create_mapping alloc st (some d) hwirq =
      ⟨vmm_host_irqdomain_find_mapping st d hwirq, st, 0⟩ := by
  rw [create_mapping_some, if_neg (by omega), if_pos hf]

/-- Helper: `create_mapping` with no existing mapping and a successful
allocator materializes the mapping at `base + hwirq`. -/
theorem create_mapping_fresh (alloc : Nat → Int) (st : ExtState) (d : HostIrqdomain)
    (hwirq : Nat) (hin : hwirq ≤ d.count)
    (hf : vmm_host_irqdomain_find_mapping st d hwirq < 0)
    (ha : 0 ≤ alloc (d.base + hwirq)) :
    vmm_host_irqdomain_create_mapping alloc st (some d) hwirq =
      ⟨((d.base + hwirq : Nat) : Int), ⟨(d.base + hwirq) :: st.live⟩, 1⟩ := by
  have he : vmm_host_irqext_create_mapping alloc st (d.base + hwirq) =
      (alloc (d.base + hwirq), ⟨(d.base + hwirq) :: st.live⟩) := by
    unfold vmm_host_irqext_create_mapping
    rw [if_neg (by omega)]
  rw [create_mapping_some, if_neg (by omega), if_neg (by omega), he]
  rw [if_neg (not_lt.mpr ha)]

/-- Helper: `create_mapping` with no existing mapping and a failing
allocator propagates the allocator's error, leaving the state unchanged. -/
theorem create_mapping_allocfail (alloc : Nat → Int) (st : ExtState) (d : HostIrqdomain)
    (hwirq : Nat) (hin : hwirq ≤ d.count)
    (hf : vmm_host_irqdomain_find_mapping st d hwirq < 0)
    (ha : alloc (d.base + hwirq) < 0) :
    vmm_host_irqdomain_create_mapping alloc st (some d) hwirq =
      ⟨alloc (d.base + hwirq), st, 1⟩ := by
  have he : vmm_host_irqext_create_mapping alloc st (d.base + hwirq) =
      (alloc (d.base + hwirq), st) := by
    unfold vmm_host_irqext_create_mapping
    rw [if_pos ha]
  rw [create_mapping_some, if_neg (by omega), if_neg (by omega), he, if_pos ha]

/-- C5: `vmm_host_irqdomain_create_mapping` is idempotent: for every
in-bounds `hwirq`, if the first call returns a host IRQ number (succeeds),
a second call with no intervening disposal returns the same number and
does not invoke the external allocator; and when a mapping already
exists, the first call returns it without invoking the allocator. -/
theorem create_mapping_idempotent (alloc : Nat → Int) (st : ExtState)
    (d : HostIrqdomain) (hwirq : Nat) (hin : hwirq ≤ d.count)
    (hok : 0 ≤ (vmm_host_irqdomain_create_mapping alloc st (some d) hwirq).ret) :
    (vmm_host_irqdomain_create_mapping alloc
        (vmm_host_irqdomain_create_mapping alloc st (some d) hwirq).st
        (some d) hwirq).ret =
      (vmm_host_irqdomain_create_mapping alloc st (some d) hwirq).ret ∧
    (vmm_host_irqdomain_create_mapping alloc
        (vmm_host_irqdomain_create_mapping alloc st (some d) hwirq).st
        (some d) hwirq).allocCalls = 0 ∧
    (0 ≤ vmm_host_irqdomain_find_mapping st d hwirq →
      (vmm_host_irqdomain_create_mapping alloc st (some d) hwirq).ret =
        vmm_host_irqdomain_find_mapping st d hwirq ∧
      (vmm_host_irqdomain_create_mapping alloc st (some d) hwirq).allocCalls = 0) := by
  by_cases hf : 0 ≤ vmm_host_irqdomain_find_mapping st d hwirq
  · have e1 := create_mapping_exists alloc st d hwirq hin hf
    simp only [e1]
    refine ⟨?_, ?_, ?_⟩ <;> simp
  · push_neg at hf
    by_cases ha : alloc (d.base + hwirq) < 0
    · exfalso
      have e1 := create_mapping_allocfail alloc st d hwirq hin hf ha
      rw [e1] at hok
      have h2 : (0 : Int) ≤ alloc (d.base + hwirq) := hok
      omega
    · push_neg at ha
      have e1 := create_mapping_fresh alloc st d hwirq hin hf ha
      have hlive : vmm_host_irq_get (⟨(d.base + hwirq) :: st.live⟩ : ExtState)
          (d.base + hwirq) = true := by
        simp [vmm_host_irq_get]
      have hf2 : vmm_host_irqdomain_find_mapping ⟨(d.base + hwirq) :: st.live⟩ d hwirq =
          ((d.base + hwirq : Nat) : Int) :=
        find_mapping_hit _ d hwirq hin hlive
      have e2 := create_mapping_exists alloc ⟨(d.base + hwirq) :: st.live⟩ d hwirq hin
        (by rw [hf2]; exact Int.natCast_nonneg _)
      simp only [e1, e2, hf2]
      refine ⟨?_, ?_, ?_⟩
      · simp
      · simp
      · exact fun hcon => absurd hcon (not_le.mpr hf)

/-- C5 witness: domain `base = 10, count = 4, end = 14`, empty registry,
allocator succeeding with `0`: the first call at `hwirq = 2` returns `12`
and the second call returns `12` again without invoking the allocator. -/
theorem create_mapping_idempotent_witness :
    (vmm_host_irqdomain_create_mapping (fun _ => 0) ⟨[]⟩
        (some ⟨10, 4, 14⟩) 2).ret = 12 ∧
    (vmm_host_irqdomain_create_mapping (fun _ => 0)
        (vmm_host_irqdomain_create_mapping (fun _ => 0) ⟨[]⟩
          (some ⟨10, 4, 14⟩) 2).st
        (some ⟨10, 4, 14⟩) 2).ret = 12 ∧
    (vmm_host_irqdomain_create_mapping (fun _ => 0)
        (vmm_host_irqdomain_create_mapping (fun _ => 0) ⟨[]⟩
          (some ⟨10, 4, 14⟩) 2).st
        (some ⟨10, 4, 14⟩) 2).allocCalls = 0 := by
  have h := create_mapping_idempotent (fun _ => 0) ⟨[]⟩ ⟨10, 4, 14⟩ 2
    (by decide) (by decide)
  refine ⟨by decide, ?_, h.2.1⟩
  rw [h.1]
  decide

/-- C10: the bounds check of `create_mapping` (and `find_mapping`) rejects
only `hwirq` strictly greater than `count`, so `hwirq = count` is
accepted; with no existing mapping and a successful allocator,
`create_mapping(domain, count)` returns `base + count = end` and makes a
mapping live at `end`, a host IRQ number outside the domain's half-open
owned range `[base, end)`. -/
theorem create_mapping_boundary_overflow (alloc : Nat → Int) (st : ExtState)
    (d : HostIrqdomain) (hend : d.end_ = d.base + d.count)
    (hnl : vmm_host_irq_get st (d.base + d.count) = false)
    (ha : 0 ≤ alloc (d.base + d.count)) :
    (vmm_host_irqdomain_create_mapping alloc st (some d) d.count).ret =
      ((d.end_ : Nat) : Int) ∧
    vmm_host_irq_get
      (vmm_host_irqdomain_create_mapping alloc st (some d) d.count).st d.end_ = true ∧
    (∀ n : Nat, d.base ≤ n → n < d.end_ →
      (n : Int) ≠ (vmm_host_irqdomain_create_mapping alloc st (some d) d.count).ret) := by
  have hf : vmm_host_irqdomain_find_mapping st d d.count = -1 :=
    find_mapping_miss st d d.count (le_refl _) hnl
  have e1 := create_mapping_fresh alloc st d d.count (le_refl _)
    (by rw [hf]; decide) ha
  simp only [e1]
  refine ⟨by rw [hend], ?_, ?_⟩
  · simp [vmm_host_irq_get, hend]
  · intro n h1 h2 hcon
    rw [hend] at h2
    have : n = d.base + d.count := by exact_mod_cast hcon
    omega

/-- C10 witness: domain `base = 0, count = 4, end = 4`, empty registry,
allocator succeeding: `create_mapping` at `hwirq = 4 = count` is accepted
and returns host IRQ `4 = end`, which is outside `[0, 4)`. -/
theorem create_mapping_boundary_witness :
    (vmm_host_irqdomain_create_mapping (fun _ => 0) ⟨[]⟩ (some ⟨0, 4, 4⟩) 4).ret = 4 ∧
    vmm_host_irq_get
      (vmm_host_irqdomain_create_mapping (fun _ => 0) ⟨[]⟩ (some ⟨0, 4, 4⟩) 4).st 4 =
      true ∧
    ((3 : Int) ≠
      (vmm_host_irqdomain_create_mapping (fun _ => 0) ⟨[]⟩ (some ⟨0, 4, 4⟩) 4).ret) := by
  have h := create_mapping_boundary_overflow (fun _ => 0) ⟨[]⟩ ⟨0, 4, 4⟩
    (by decide) (by decide) (by decide)
  exact ⟨h.1, h.2.1, h.2.2 3 (by decide) (by decide)⟩

/-- Helper: range disjointness is a symmetric relation. -/
theorem rangesDisjoint_symm : Symmetric rangesDisjoint :=
  fun _ _ h => h.elim Or.inr Or.inl

/-- C9: for a live domain `d` of a registry whose half-open ranges are
pairwise disjoint, `dispose_mapping(d.base)` returns `VMM_ENOTAVAIL`
even when a live mapping exists at host IRQ `d.base`, because
`vmm_host_irqdomain_get` uses the strict comparison `hirq > base` and so
never attributes a domain's first host IRQ number to any domain. -/
theorem dispose_mapping_base_enotavail (disp : Nat → Int) (st : ExtState)
    (reg : List HostIrqdomain) (d : HostIrqdomain)
    (hmem : d ∈ reg) (hne : d.base < d.end_)
    (hdisj : reg.Pairwise rangesDisjoint)
    (hlive : vmm_host_irq_get st d.base = true) :
    (vmm_host_irqdomain_dispose_mapping disp st reg d.base).1 = VMM_ENOTAVAIL := by
  have hget : vmm_host_irqdomain_get reg d.base = none := by
    unfold vmm_host_irqdomain_get
    rw [List.find?_eq_none]
    intro x hx
    simp only [decide_eq_true_eq]
    intro hc
    rcases hc with ⟨h1, h2⟩
    by_cases hxd : x = d
    · subst hxd; omega
    · rcases hdisj.forall rangesDisjoint_symm hx hmem hxd with h | h <;> omega
  unfold vmm_host_irqdomain_dispose_mapping
  rw [hget]

/-- C9 witness: registry `[⟨0,4,4⟩, ⟨10,4,14⟩]` (disjoint ranges), a live
mapping at host IRQ 10 = the second domain's `base`: disposing host IRQ
10 fails with `VMM_ENOTAVAIL`. -/
theorem dispose_mapping_base_witness :
    (vmm_host_irqdomain_dispose_mapping (fun _ => 0) ⟨[10]⟩
        [⟨0, 4, 4⟩, ⟨10, 4, 14⟩] 10).1 = VMM_ENOTAVAIL :=
  dispose_mapping_base_enotavail (fun _ => 0) ⟨[10]⟩ [⟨0, 4, 4⟩, ⟨10, 4, 14⟩]
    ⟨10, 4, 14⟩ (by decide) (by decide) (by decide) (by decide)

/-- Helper: the disposal loop visits exactly the positions `base + i`,
`i < len`, in order, whatever the disposal oracle answers. -/
theorem disposeRange_calls_aux (disp : Nat → Int) (base : Nat) :
    ∀ (len : Nat) (st : ExtState) (acc : List Nat),
      ((List.range len).foldl
        (fun p i =>
          ((vmm_host_irqext_dispose_mapping disp p.1 (base + i)).2,
           p.2 ++ [base + i]))
        (st, acc)).2 = acc ++ (List.range len).map (fun i => base + i) := by
  intro len
  induction len with
  | zero => intro st acc; simp
  | succ n ih =>
    intro st acc
    rw [List.range_succ, List.foldl_append]
    simp only [List.foldl_cons, List.foldl_nil]
    rw [ih st acc]
    simp [List.range_succ]

/-- Helper: `disposeRange` records an invocation for every slot of the
range, regardless of disposal failures. -/
theorem disposeRange_calls (disp : Nat → Int) (st : ExtState) (base len : Nat) :
    (disposeRange disp st base len).2 = (List.range len).map (fun i => base + i) := by
  unfold disposeRange
  rw [disposeRange_calls_aux]
  simp

/-- C7: `vmm_host_irqdomain_remove` is a no-op on a NULL domain;
otherwise it unlinks the domain from the registry and invokes the
external disposal on every host IRQ number in `[base, end)` — for every
disposal oracle, including ones that fail on some slots — before
releasing the record. -/
theorem remove_spec (disp : Nat → Int) (st : ExtState) (reg : List HostIrqdomain)
    (d : HostIrqdomain) :
    vmm_host_irqdomain_remove disp st reg none = (st, reg, []) ∧
    (vmm_host_irqdomain_remove disp st reg (some d)).2.1 = reg.erase d ∧
    (vmm_host_irqdomain_remove disp st reg (some d)).2.2 =
      (List.range (d.end_ - d.base)).map (fun i => d.base + i) ∧
    (∀ pos : Nat,
      pos ∈ (vmm_host_irqdomain_remove disp st reg (some d)).2.2 ↔
        (d.base ≤ pos ∧ pos < d.end_)) := by
  refine ⟨rfl, rfl, disposeRange_calls disp st d.base (d.end_ - d.base), ?_⟩
  intro pos
  have h : (vmm_host_irqdomain_remove disp st reg (some d)).2.2 =
      (List.range (d.end_ - d.base)).map (fun i => d.base + i) :=
    disposeRange_calls disp st d.base (d.end_ - d.base)
  rw [h]
  simp only [List.mem_map, List.mem_range]
  constructor
  · rintro ⟨i, hi, rfl⟩
    omega
  · rintro ⟨h1, h2⟩
    exact ⟨pos - d.base, by omega, by omega⟩

/-- Helper: `add` with an explicit in-capacity base succeeds and appends
the populated domain at the tail. -/
theorem add_explicit_ok (cap : Nat) (oracle : Nat → Int) (reg : List HostIrqdomain)
    (base : Int) (size : Nat) (hb : 0 ≤ base)
    (h2 : base + (size : Int) < (cap : Int)) :
    vmm_host_irqdomain_add cap oracle reg base size =
      (some ⟨base.toNat, size, base.toNat + size⟩,
       reg ++ [⟨base.toNat, size, base.toNat + size⟩]) := by
  unfold vmm_host_irqdomain_add
  rw [if_neg (by omega), if_neg (by omega), if_neg (by omega)]

/-- Helper: `add` with a negative base and a successful region allocator
succeeds with the auto-assigned base. -/
theorem add_auto_ok (cap : Nat) (oracle : Nat → Int) (reg : List HostIrqdomain)
    (base : Int) (size : Nat) (hb : base < 0) (ho : 0 ≤ oracle size) :
    vmm_host_irqdomain_add cap oracle reg base size =
      (some ⟨(oracle size).toNat, size, (oracle size).toNat + size⟩,
       reg ++ [⟨(oracle size).toNat, size, (oracle size).toNat + size⟩]) := by
  unfold vmm_host_irqdomain_add
  rw [if_neg (by omega), if_neg (by omega), if_pos hb]

/-- Helper: `add` with a negative base and a failing region allocator
fails, leaving the registry unchanged. -/
theorem add_auto_fail (cap : Nat) (oracle : Nat → Int) (reg : List HostIrqdomain)
    (base : Int) (size : Nat) (hb : base < 0) (ho : oracle size < 0) :
    vmm_host_irqdomain_add cap oracle reg base size = (none, reg) := by
  unfold vmm_host_irqdomain_add
  rw [if_neg (by omega), if_pos ⟨hb, ho⟩]

/-- Helper: `add` with an explicit base hitting the capacity check fails,
leaving the registry unchanged. -/
theorem add_reject (cap : Nat) (oracle : Nat → Int) (reg : List HostIrqdomain)
    (base : Int) (size : Nat) (hb : 0 ≤ base)
    (hc : (cap : Int) ≤ base ∨ (cap : Int) ≤ base + (size : Int)) :
    vmm_host_irqdomain_add cap oracle reg base size = (none, reg) := by
  unfold vmm_host_irqdomain_add
  rw [if_pos ⟨hb, hc⟩]

/-- Helper: every `add` either fails leaving the registry unchanged or
returns a domain appended at the tail. -/
theorem add_shape (cap : Nat) (oracle : Nat → Int) (reg : List HostIrqdomain)
    (base : Int) (size : Nat) :
    ((vmm_host_irqdomain_add cap oracle reg base size).1 = none ∧
     (vmm_host_irqdomain_add cap oracle reg base size).2 = reg) ∨
    (∃ d, (vmm_host_irqdomain_add cap oracle reg base size).1 = some d ∧
       (vmm_host_irqdomain_add cap oracle reg base size).2 = reg ++ [d]) := by
  unfold vmm_host_irqdomain_add
  by_cases c1 : 0 ≤ base ∧ ((cap : Int) ≤ base ∨ (cap : Int) ≤ base + (size : Int))
  · rw [if_pos c1]
    exact Or.inl ⟨rfl, rfl⟩
  · rw [if_neg c1]
    by_cases c2 : base < 0 ∧ oracle size < 0
    · rw [if_pos c2]
      exact Or.inl ⟨rfl, rfl⟩
    · rw [if_neg c2]
      by_cases c3 : base < 0
      · rw [if_pos c3]
        exact Or.inr ⟨_, rfl, rfl⟩
      · rw [if_neg c3]
        exact Or.inr ⟨_, rfl, rfl⟩

/-- C6 counterexample: with capacity 1024, `add(base = 1020, size = 4)`
requests the range `[1020, 1024)`, which does not exceed the capacity
(`1020 + 4 ≤ 1024`), yet `add` fails: the check `CONFIG_HOST_IRQ_COUNT <=
base + size` also rejects the exactly-fitting range. -/
theorem add_rejects_exact_fit_cex :
    (vmm_host_irqdomain_add 1024 (fun _ => 0) [] 1020 4).1 = none ∧
    (0 : Int) ≤ 1020 ∧ ¬ ((1024 : Int) < 1020 + 4) := by
  refine ⟨by decide, by decide, by decide⟩

/-- C6 (amended): `add` with `base ≥ 0` fails (no domain, registry
unchanged) exactly when `cap ≤ base` or `cap ≤ base + size` — i.e. it
also rejects the exactly-fitting range whose end equals the capacity;
with `base < 0` it obtains an auto-assigned base from the external
region allocator, failing (registry unchanged) when the allocator fails;
on success the populated domain (`end = base + size`) is appended at the
tail of the registry and returned. -/
theorem add_spec_amended (cap : Nat) (oracle : Nat → Int) (reg : List HostIrqdomain)
    (base : Int) (size : Nat) :
    (0 ≤ base →
      (vmm_host_irqdomain_add cap oracle reg base size = (none, reg) ↔
        (cap : Int) ≤ base ∨ (cap : Int) ≤ base + (size : Int))) ∧
    (base < 0 → oracle size < 0 →
      vmm_host_irqdomain_add cap oracle reg base size = (none, reg)) ∧
    (base < 0 → 0 ≤ oracle size →
      vmm_host_irqdomain_add cap oracle reg base size =
        (some ⟨(oracle size).toNat, size, (oracle size).toNat + size⟩,
         reg ++ [⟨(oracle size).toNat, size, (oracle size).toNat + size⟩])) ∧
    (0 ≤ base → base + (size : Int) < (cap : Int) →
      vmm_host_irqdomain_add cap oracle reg base size =
        (some ⟨base.toNat, size, base.toNat + size⟩,
         reg ++ [⟨base.toNat, size, base.toNat + size⟩])) := by
  refine ⟨fun hb => ⟨fun hr => ?_, add_reject cap oracle reg base size hb⟩,
    add_auto_fail cap oracle reg base size,
    add_auto_ok cap oracle reg base size,
    add_explicit_ok cap oracle reg base size⟩
  by_contra hc
  push_neg at hc
  rw [add_explicit_ok cap oracle reg base size hb (by omega)] at hr
  simp at hr

/-- C6 witness: with capacity 1024, the four behaviours at concrete
inputs: capacity rejection, allocator failure, auto-assigned success,
and explicit-base success. -/
theorem add_spec_amended_witness :
    vmm_host_irqdomain_add 1024 (fun _ => 0) [] 2000 4 = (none, []) ∧
    vmm_host_irqdomain_add 1024 (fun _ => -1) [] (-1) 4 = (none, []) ∧
    vmm_host_irqdomain_add 1024 (fun _ => 100) [] (-1) 4 =
      (some ⟨100, 4, 104⟩, [⟨100, 4, 104⟩]) ∧
    vmm_host_irqdomain_add 1024 (fun _ => 0) [] 100 8 =
      (some ⟨100, 8, 108⟩, [⟨100, 8, 108⟩]) := by
  refine ⟨?_, ?_, ?_, ?_⟩
  · exact ((add_spec_amended 1024 (fun _ => 0) [] 2000 4).1 (by decide)).2
      (by decide)
  · exact (add_spec_amended 1024 (fun _ => -1) [] (-1) 4).2.1 (by decide) (by decide)
  · exact (add_spec_amended 1024 (fun _ => 100) [] (-1) 4).2.2.1 (by decide)
      (by decide)
  · exact (add_spec_amended 1024 (fun _ => 0) [] 100 8).2.2.2 (by decide) (by decide)

/-- C2 counterexample: a registry with two distinct live domains whose
half-open ranges overlap is reachable from the empty registry by two
`add` calls with explicit bases (`add` never checks a caller-supplied
base against the live domains): `[0, 4)` and `[2, 6)` overlap. -/
theorem overlap_reachable_cex :
    Reach 64 [⟨0, 4, 4⟩, ⟨2, 4, 6⟩] ∧
    (⟨0, 4, 4⟩ : HostIrqdomain) ≠ ⟨2, 4, 6⟩ ∧
    (⟨0, 4, 4⟩ : HostIrqdomain) ∈ ([⟨0, 4, 4⟩, ⟨2, 4, 6⟩] : List HostIrqdomain) ∧
    (⟨2, 4, 6⟩ : HostIrqdomain) ∈ ([⟨0, 4, 4⟩, ⟨2, 4, 6⟩] : List HostIrqdomain) ∧
    ¬ rangesDisjoint ⟨0, 4, 4⟩ ⟨2, 4, 6⟩ := by
  refine ⟨?_, by decide, by decide, by decide, by decide⟩
  have h0 : Reach 64 ((vmm_host_irqdomain_add 64 (fun _ => 0) [] 0 4).2) :=
    Reach.step_add [] (fun _ => 0) 0 4 Reach.init
  have e0 : (vmm_host_irqdomain_add 64 (fun _ => 0) [] 0 4).2 = [⟨0, 4, 4⟩] := by
    decide
  rw [e0] at h0
  have h1 : Reach 64 ((vmm_host_irqdomain_add 64 (fun _ => 0) [⟨0, 4, 4⟩] 2 4).2) :=
    Reach.step_add [⟨0, 4, 4⟩] (fun _ => 0) 2 4 h0
  have e1 : (vmm_host_irqdomain_add 64 (fun _ => 0) [⟨0, 4, 4⟩] 2 4).2 =
      [⟨0, 4, 4⟩, ⟨2, 4, 6⟩] := by decide
  rw [e1] at h1
  exact h1

/-- C2 (amended): the code never re-validates overlap, so disjointness is
an invariant only of the disciplined reachability relation `ReachDisj`,
in which every successful `add` creates a domain whose range is disjoint
from all domains live at that moment: every registry reachable under
that discipline has pairwise disjoint half-open ranges. -/
theorem reachDisj_pairwise_disjoint (cap : Nat) (reg : List HostIrqdomain)
    (h : ReachDisj cap reg) : reg.Pairwise rangesDisjoint := by
  induction h with
  | init => exact List.Pairwise.nil
  | step_add reg oracle base size hr hguard ih =>
    rcases add_shape cap oracle reg base size with ⟨hn, he⟩ | ⟨d, hs, he⟩
    · rw [he]
      exact ih
    · rw [he, List.pairwise_append]
      refine ⟨ih, List.pairwise_singleton _ _, fun a ha b hb => ?_⟩
      rw [List.mem_singleton] at hb
      rw [hb]
      exact hguard d hs a ha
  | step_remove reg disp st dom hr ih =>
    cases dom with
    | none => exact ih
    | some d =>
      have he : (vmm_host_irqdomain_remove disp st reg (some d)).2.1 =
          reg.erase d := rfl
      rw [he]
      exact List.Pairwise.sublist (List.erase_sublist d reg) ih

/-- C2 witness: the registry `[⟨0,4,4⟩, ⟨10,2,12⟩]` is reachable under
the disciplined relation (two disjoint explicit-base `add`s), and the
theorem yields its pairwise disjointness. -/
theorem reachDisj_pairwise_witness :
    List.Pairwise rangesDisjoint ([⟨0, 4, 4⟩, ⟨10, 2, 12⟩] : List HostIrqdomain) := by
  have h0 : ReachDisj 64 ((vmm_host_irqdomain_add 64 (fun _ => 0) [] 0 4).2) :=
    ReachDisj.step_add [] (fun _ => 0) 0 4 ReachDisj.init
      (fun d hd x hx => absurd hx (List.not_mem_nil x))
  have e0 : (vmm_host_irqdomain_add 64 (fun _ => 0) [] 0 4).2 = [⟨0, 4, 4⟩] := by
    decide
  rw [e0] at h0
  have h1 : ReachDisj 64 ((vmm_host_irqdomain_add 64 (fun _ => 0) [⟨0, 4, 4⟩] 10 2).2) :=
    ReachDisj.step_add [⟨0, 4, 4⟩] (fun _ => 0) 10 2 h0 (by
      intro d hd x hx
      have e : (vmm_host_irqdomain_add 64 (fun _ => 0) [⟨0, 4, 4⟩] 10 2).1 =
          some ⟨10, 2, 12⟩ := by decide
      rw [e] at hd
      injection hd with hd2
      subst hd2
      rw [List.mem_singleton] at hx
      subst hx
      decide)
  have e1 : (vmm_host_irqdomain_add 64 (fun _ => 0) [⟨0, 4, 4⟩] 10 2).2 =
      [⟨0, 4, 4⟩, ⟨10, 2, 12⟩] := by decide
  rw [e1] at h1
  exact reachDisj_pairwise_disjoint 64 [⟨0, 4, 4⟩, ⟨10, 2, 12⟩] h1

end Irqdomain
